import Mathlib

/-!
Verification model of the Rust command-line to-do list (`src/main.rs`).

The program keeps a `Vec<Task>` in memory, drives a text menu loop over
standard input, and persists the list to `tasks.json` with `serde_json`
(load at startup via `read_tasks`, save on the exit path of `main`).

Modelling conventions:
* Rust `String` data is a Lean `String` / `List Char` (both are sequences of
  Unicode scalar values).
* `usize` arithmetic is `Nat` with explicit wrapping `% 2 ^ 64` where the
  source can overflow (`num - 1` in `read_index_input`), i.e. the semantics
  of a build with overflow checks disabled.
* Console output, file creation/truncation, file writes and process exit are
  recorded as an explicit list of `Event`s.
* Standard input is an explicit script: a list of lines, each either
  successfully read or an I/O error; an exhausted script is end-of-input.
-/

namespace Todo

/-- The task record of `main.rs`: `struct Task { name, desc, due_date, done }`. -/
structure Task where
  name : String
  desc : String
  due_date : String
  done : Bool
deriving DecidableEq, Repr

/-! ## Model of `serde_json` serialization of `Vec<Task>`

`serde_json::to_string` emits the compact form
`[{"name":"…","desc":"…","due_date":"…","done":false},…]` with the struct
fields in declaration order, escaping `"`, `\` and the control characters
U+0000–U+001F (short escapes for backspace, tab, newline, form feed,
carriage return; `\u00XX` otherwise).  The parser below is a
recursive-descent reader of that grammar which fails (`none`) on any input
it cannot parse, modelling `serde_json::from_reader` on this schema. -/

/-- Hex digit character used by the `\u00XX` escapes (lower case, as emitted
by `serde_json`). -/
def hexDigit (n : Nat) : Char :=
  if n < 10 then Char.ofNat (48 + n) else Char.ofNat (87 + n)

/-- Escape one character the way `serde_json` does inside a JSON string. -/
def escChar (c : Char) : List Char :=
  if c = '"' then ['\\', '"']
  else if c = '\\' then ['\\', '\\']
  else if c.toNat = 8 then ['\\', 'b']
  else if c = '\t' then ['\\', 't']
  else if c = '\n' then ['\\', 'n']
  else if c.toNat = 12 then ['\\', 'f']
  else if c = '\r' then ['\\', 'r']
  else if c.toNat < 32 then ['\\', 'u', '0', '0', hexDigit (c.toNat / 16), hexDigit (c.toNat % 16)]
  else [c]

/-- Escape a whole string body. -/
def escString : List Char → List Char
  | [] => []
  | c :: s => escChar c ++ escString s

/-- A serialized JSON string: quote, escaped body, quote. -/
def renderString (s : List Char) : List Char :=
  '"' :: (escString s ++ ['"'])

/-- Numeric value of one hex digit character. -/
def hexVal (c : Char) : Option Nat :=
  if 48 ≤ c.toNat ∧ c.toNat ≤ 57 then some (c.toNat - 48)
  else if 97 ≤ c.toNat ∧ c.toNat ≤ 102 then some (c.toNat - 87)
  else if 65 ≤ c.toNat ∧ c.toNat ≤ 70 then some (c.toNat - 55)
  else none

/-- Fuel-indexed JSON string-body reader: consumes characters up to an
unescaped closing quote, decoding escapes; one unit of fuel per produced
character.  Returns the decoded body and the unconsumed remainder. -/
def parseStrBodyF : Nat → List Char → Option (List Char × List Char)
  | 0, _ => none
  | _ + 1, [] => none
  | fuel + 1, c :: l =>
    if c = '"' then some ([], l)
    else if c = '\\' then
      match l with
      | [] => none
      | e :: l2 =>
        if e = '"' then (parseStrBodyF fuel l2).map (fun p => ('"' :: p.1, p.2))
        else if e = '\\' then (parseStrBodyF fuel l2).map (fun p => ('\\' :: p.1, p.2))
        else if e = 'b' then (parseStrBodyF fuel l2).map (fun p => (Char.ofNat 8 :: p.1, p.2))
        else if e = 't' then (parseStrBodyF fuel l2).map (fun p => ('\t' :: p.1, p.2))
        else if e = 'n' then (parseStrBodyF fuel l2).map (fun p => ('\n' :: p.1, p.2))
        else if e = 'f' then (parseStrBodyF fuel l2).map (fun p => (Char.ofNat 12 :: p.1, p.2))
        else if e = 'r' then (parseStrBodyF fuel l2).map (fun p => ('\r' :: p.1, p.2))
        else if e = 'u' then
          match l2 with
          | h1 :: h2 :: h3 :: h4 :: l3 =>
            match hexVal h1, hexVal h2, hexVal h3, hexVal h4 with
            | some a, some b, some c2, some d =>
              (parseStrBodyF fuel l3).map
                (fun p => (Char.ofNat (4096 * a + 256 * b + 16 * c2 + d) :: p.1, p.2))
            | _, _, _, _ => none
          | _ => none
        else none
    else (parseStrBodyF fuel l).map (fun p => (c :: p.1, p.2))

/-- JSON string reader: expects an opening quote then a string body. -/
def parseJString (l : List Char) : Option (List Char × List Char) :=
  match l with
  | '"' :: r => parseStrBodyF r.length r
  | _ => none

/-- Reads an exact literal prefix and returns the remainder. -/
def parseLit : List Char → List Char → Option (List Char)
  | [], l => some l
  | _ :: _, [] => none
  | p :: ps, c :: l => if p = c then parseLit ps l else none

/-- Object-start literal `{"name":` (fields appear in declaration order). -/
def litName : List Char := ("\x7b\"name\":").data

/-- Separator literal `,"desc":`. -/
def litDesc : List Char := (",\"desc\":").data

/-- Separator literal `,"due_date":`. -/
def litDue : List Char := (",\"due_date\":").data

/-- Separator literal `,"done":`. -/
def litDone : List Char := (",\"done\":").data

/-- Boolean literal `true`. -/
def litTrue : List Char := ("true").data

/-- Boolean literal `false`. -/
def litFalse : List Char := ("false").data

/-- Serialized JSON boolean. -/
def renderBool (b : Bool) : List Char :=
  if b then litTrue else litFalse

/-- One serialized task object, fields in the declaration order of
`struct Task`. -/
def renderTask (t : Task) : List Char :=
  litName ++ renderString t.name.data ++ litDesc ++ renderString t.desc.data ++
    litDue ++ renderString t.due_date.data ++ litDone ++ renderBool t.done ++
    [Char.ofNat 125]

/-- Comma-separated serialized task objects. -/
def renderElems : List Task → List Char
  | [] => []
  | [t] => renderTask t
  | t :: t2 :: ts => renderTask t ++ ',' :: renderElems (t2 :: ts)

/-- Model of `serde_json::to_string(&tasks)`: the full serialized array. -/
def renderTasks (ts : List Task) : List Char :=
  '[' :: (renderElems ts ++ [']'])

/-- JSON boolean reader. -/
def parseBool (l : List Char) : Option (Bool × List Char) :=
  match parseLit litTrue l with
  | some r => some (true, r)
  | none =>
    match parseLit litFalse l with
    | some r => some (false, r)
    | none => none

/-- Reads one task object `{"name":…,"desc":…,"due_date":…,"done":…}`. -/
def parseTask (l : List Char) : Option (Task × List Char) :=
  match parseLit litName l with
  | none => none
  | some l1 =>
    match parseJString l1 with
    | none => none
    | some (nm, l2) =>
      match parseLit litDesc l2 with
      | none => none
      | some l3 =>
        match parseJString l3 with
        | none => none
        | some (ds, l4) =>
          match parseLit litDue l4 with
          | none => none
          | some l5 =>
            match parseJString l5 with
            | none => none
            | some (du, l6) =>
              match parseLit litDone l6 with
              | none => none
              | some l7 =>
                match parseBool l7 with
                | none => none
                | some (dn, l8) =>
                  match l8 with
                  | c :: l9 =>
                    if c = Char.ofNat 125 then some (⟨⟨nm⟩, ⟨ds⟩, ⟨du⟩, dn⟩, l9)
                    else none
                  | [] => none

/-- Fuel-indexed reader of the comma-separated elements of a non-empty task
array, up to and including the closing bracket. -/
def parseArrElems : Nat → List Char → Option (List Task × List Char)
  | 0, _ => none
  | fuel + 1, l =>
    match parseTask l with
    | none => none
    | some (t, r) =>
      match r with
      | ']' :: r2 => some ([t], r2)
      | ',' :: r2 => (parseArrElems fuel r2).map (fun p => (t :: p.1, p.2))
      | _ => none

/-- Model of `serde_json::from_reader` for `Vec<Task>` on the compact
grammar produced by `renderTasks`: the whole input must be consumed. -/
def parseTasks (l : List Char) : Option (List Task) :=
  match l with
  | '[' :: ']' :: r2 => if r2.isEmpty then some [] else none
  | '[' :: r =>
    match parseArrElems r.length r with
    | some (ts, r2) => if r2.isEmpty then some ts else none
    | none => none
  | _ => none

/-! ## Round trip of the serialization model -/

/-- Reading back a serialized hex digit recovers its value. -/
theorem hexVal_hexDigit : ∀ n, n < 16 → hexVal (hexDigit n) = some n := by decide

/-- One escaped character parses back to the character, uniformly in the
remaining input and fuel. -/
theorem parseStrBodyF_esc (c : Char) (l : List Char) (fuel : Nat) :
    parseStrBodyF (fuel + 1) (escChar c ++ l) =
      (parseStrBodyF fuel l).map (fun p => (c :: p.1, p.2)) := by
  unfold escChar
  split_ifs with h1 h2 h3 h4 h5 h6 h7 h8
  · subst h1; rfl
  · subst h2; rfl
  · have hc : c = Char.ofNat 8 := by rw [← h3]; exact (Char.ofNat_toNat c).symm
    subst hc; rfl
  · subst h4; rfl
  · subst h5; rfl
  · have hc : c = Char.ofNat 12 := by rw [← h6]; exact (Char.ofNat_toNat c).symm
    subst hc; rfl
  · subst h7; rfl
  · have hd1 : c.toNat / 16 < 16 := Nat.div_lt_of_lt_mul (by omega)
    have hd2 : c.toNat % 16 < 16 := Nat.mod_lt _ (by omega)
    have e1 : hexVal '0' = some 0 := rfl
    have e2 := hexVal_hexDigit _ hd1
    have e3 := hexVal_hexDigit _ hd2
    have harith : 4096 * 0 + 256 * 0 + 16 * (c.toNat / 16) + c.toNat % 16 = c.toNat := by
      have := Nat.div_add_mod c.toNat 16
      omega
    show (match hexVal '0', hexVal '0', hexVal (hexDigit (c.toNat / 16)),
            hexVal (hexDigit (c.toNat % 16)) with
          | some a, some b, some c2, some d =>
            Option.map (fun p => (Char.ofNat (4096 * a + 256 * b + 16 * c2 + d) :: p.1, p.2))
              (parseStrBodyF fuel l)
          | _, _, _, _ => none)
        = Option.map (fun p => (c :: p.1, p.2)) (parseStrBodyF fuel l)
    rw [e1, e2, e3]
    simp only [harith]
    rw [Char.ofNat_toNat]
  · simp only [List.cons_append, List.nil_append, parseStrBodyF]
    rw [if_neg h1, if_neg h2]
    rfl

/-- An escaped string body followed by the closing quote parses back to the
body, given enough fuel. -/
theorem parseStrBodyF_escString (s : List Char) :
    ∀ (fuel : Nat) (rest : List Char), s.length < fuel →
      parseStrBodyF fuel (escString s ++ ('"' :: rest)) = some (s, rest) := by
  induction s with
  | nil =>
    intro fuel rest h
    cases fuel with
    | zero => omega
    | succ f => rfl
  | cons c s ih =>
    intro fuel rest h
    cases fuel with
    | zero => omega
    | succ f =>
      have hlt : s.length < f := by simp at h; omega
      simp only [escString, List.append_assoc, parseStrBodyF_esc, ih f rest hlt]
      rfl

/-- Escaping never shortens a string. -/
theorem length_le_length_escString (s : List Char) : s.length ≤ (escString s).length := by
  induction s with
  | nil => simp [escString]
  | cons c s ih =>
    have h1 : 1 ≤ (escChar c).length := by
      unfold escChar; split_ifs <;> simp
    simp only [escString, List.length_append, List.length_cons]
    omega

/-- A rendered JSON string parses back to its body. -/
theorem parseJString_render (s rest : List Char) :
    parseJString (renderString s ++ rest) = some (s, rest) := by
  have h : renderString s ++ rest = '"' :: (escString s ++ ('"' :: rest)) := by
    simp [renderString]
  rw [h]
  show parseStrBodyF (escString s ++ ('"' :: rest)).length (escString s ++ ('"' :: rest)) = _
  refine parseStrBodyF_escString s _ rest ?_
  have := length_le_length_escString s
  simp only [List.length_append, List.length_cons]
  omega

/-- Reading a literal off the front of itself succeeds. -/
theorem parseLit_append (p l : List Char) : parseLit p (p ++ l) = some l := by
  induction p with
  | nil => rfl
  | cons c p ih => simp [parseLit, ih]

/-- A rendered boolean parses back to itself. -/
theorem parseBool_render (b : Bool) (l : List Char) :
    parseBool (renderBool b ++ l) = some (b, l) := by
  cases b
  · have h : parseLit litTrue (litFalse ++ l) = none := rfl
    simp [parseBool, renderBool, h, parseLit_append]
  · simp [parseBool, renderBool, parseLit_append]

/-- A rendered task object parses back to the task. -/
theorem parseTask_render (t : Task) (l : List Char) :
    parseTask (renderTask t ++ l) = some (t, l) := by
  simp only [renderTask, List.append_assoc, List.cons_append, List.nil_append]
  simp only [parseTask, parseLit_append, parseJString_render, parseBool_render]
  rfl

/-- A non-empty element list renders starting with an opening brace. -/
theorem renderElems_cons_head (t : Task) (ts : List Task) :
    ∃ X, renderElems (t :: ts) = Char.ofNat 123 :: X := by
  cases ts
  · exact ⟨_, rfl⟩
  · exact ⟨_, rfl⟩

/-- Rendered elements are longer than the number of tasks after the first. -/
theorem lt_length_renderElems (t : Task) (ts : List Task) :
    ts.length < (renderElems (t :: ts)).length := by
  induction ts generalizing t with
  | nil =>
    obtain ⟨X, hX⟩ := renderElems_cons_head t []
    simp [hX]
  | cons t2 ts ih =>
    have := ih t2
    simp only [renderElems, List.length_append, List.length_cons]
    omega

/-- Rendered elements of a non-empty task list, followed by the closing
bracket, parse back to the list, given enough fuel. -/
theorem parseArrElems_render (ts : List Task) :
    ∀ (t : Task) (fuel : Nat) (rest : List Char), ts.length < fuel →
      parseArrElems fuel (renderElems (t :: ts) ++ (']' :: rest)) = some (t :: ts, rest) := by
  induction ts with
  | nil =>
    intro t fuel rest h
    cases fuel with
    | zero => omega
    | succ f =>
      show parseArrElems (f + 1) (renderTask t ++ (']' :: rest)) = _
      simp only [parseArrElems, parseTask_render]
  | cons t2 ts ih =>
    intro t fuel rest h
    cases fuel with
    | zero => omega
    | succ f =>
      have hshape : renderElems (t :: t2 :: ts) ++ (']' :: rest)
          = renderTask t ++ (',' :: (renderElems (t2 :: ts) ++ (']' :: rest))) := by
        simp [renderElems, List.append_assoc]
      rw [hshape]
      have hlt : ts.length < f := by simp at h; omega
      simp only [parseArrElems, parseTask_render, ih t2 f rest hlt]
      rfl

/-- Round trip of the persistence format: parsing a serialized task list
recovers the list exactly, in length, order and all four fields. -/
theorem parseTasks_renderTasks (ts : List Task) : parseTasks (renderTasks ts) = some ts := by
  cases ts with
  | nil => rfl
  | cons t ts =>
    obtain ⟨X, hX⟩ := renderElems_cons_head t ts
    have hlen : ts.length < (Char.ofNat 123 :: (X ++ ([']'] : List Char))).length := by
      have h2 := lt_length_renderElems t ts
      rw [hX] at h2
      simp only [List.length_cons, List.length_append] at h2 ⊢
      omega
    have harr := parseArrElems_render ts t
      ((Char.ofNat 123 :: (X ++ ([']'] : List Char))).length) [] hlen
    have hback : renderElems (t :: ts) ++ (']' :: ([] : List Char))
        = Char.ofNat 123 :: (X ++ [']']) := by
      rw [hX]; rfl
    rw [hback] at harr
    show parseTasks ('[' :: (renderElems (t :: ts) ++ [']'])) = some (t :: ts)
    have hsc : ('[' : Char) :: (renderElems (t :: ts) ++ [']'])
        = '[' :: Char.ofNat 123 :: (X ++ [']']) := by
      rw [hX]; rfl
    rw [hsc]
    have hred : parseTasks ('[' :: Char.ofNat 123 :: (X ++ [']'])) =
        match parseArrElems ((Char.ofNat 123 :: (X ++ ([']'] : List Char))).length)
            (Char.ofNat 123 :: (X ++ [']'])) with
        | some (ts2, r2) => if r2.isEmpty then some ts2 else none
        | none => none := rfl
    rw [hred, harr]
    rfl

/-! ## Persistence adapter, store operations, session loop -/

/-- One observable effect of the program: a `println!` line, the
truncating `File::create("tasks.json")`, a `write_all` of a byte buffer,
or normal process termination with the given exit code. -/
inductive Event where
  | out (s : String)
  | fileCreate
  | fileWrite (contents : List Char)
  | exit (code : Nat)
deriving DecidableEq, Repr

/-- State of `tasks.json` on disk at startup: absent, or present with the
given contents. -/
inductive FileState where
  | missing
  | present (contents : List Char)
deriving DecidableEq, Repr

/-- The error value produced inside `read_tasks`: `File::open` fails with a
not-found I/O error on a missing file, and a `serde_json` parse failure is
converted by `?` into an invalid-data I/O error.  Both surface as `Err`. -/
inductive ReadErr where
  | notFound
  | invalidData
deriving DecidableEq, Repr

/-- Model of `read_tasks()`: open `tasks.json`, parse its whole contents. -/
def read_tasks (fs : FileState) : Except ReadErr (List Task) :=
  match fs with
  | FileState.missing => Except.error ReadErr.notFound
  | FileState.present c =>
    match parseTasks c with
    | some ts => Except.ok ts
    | none => Except.error ReadErr.invalidData

/-- The startup `match read_tasks()` of `main`: `Ok` keeps the parsed tasks,
any `Err(_)` (missing file and malformed file alike) prints the same line
and starts from the empty list. -/
def load_step (fs : FileState) : List Task × List Event :=
  match read_tasks fs with
  | Except.ok ts => (ts, [Event.out "loaded tasks from `tasks.json`"])
  | Except.error _ => ([], [Event.out "`tasks.json` is empty, no tasks loaded."])

/-- Model of `str::trim`: strip leading and trailing whitespace.  (Stated on
the character list; the source trims Unicode whitespace, of which the ASCII
subset is what console input produces.) -/
def trimChars (s : List Char) : List Char :=
  ((s.dropWhile Char.isWhitespace).reverse.dropWhile Char.isWhitespace).reverse

/-- `read_line()` result line, trimmed, as a `String`. -/
def trimS (s : String) : String :=
  String.mk (trimChars s.data)

/-- One line offered by standard input: successfully read, or an I/O error
(in which case `read_line` leaves its buffer empty). -/
inductive InLine where
  | ok (s : String)
  | err
deriving DecidableEq, Repr

/-- Model of `read_line()`: reads one line from the input script and trims
it.  An exhausted script is end-of-input: `read_line` returns `Ok(0)`
leaving the buffer empty, so the result is the empty string.  An I/O error
prints to stderr (not modelled) and also leaves the buffer empty. -/
def read_line (ins : List InLine) : String × List InLine :=
  match ins with
  | [] => ("", [])
  | InLine.ok s :: r => (trimS s, r)
  | InLine.err :: r => ("", r)

/-- Model of `"…".parse::<usize>()`: optional leading `+`, one or more
ASCII digits, value below `2 ^ 64` (overflow is a parse error). -/
def parse_usize (s : String) : Option Nat :=
  let cs := match s.data with
            | '+' :: r => r
            | r => r
  if cs.isEmpty then none
  else if cs.all (fun c => 48 ≤ c.toNat ∧ c.toNat ≤ 57) then
    let v := cs.foldl (fun a c => 10 * a + (c.toNat - 48)) 0
    if v < 2 ^ 64 then some v else none
  else none

/-- Model of `read_index_input` applied to the line it reads: parse the line
as a `usize`, subtract one (wrapping, `usize` semantics with overflow checks
off), and range-check against the store length.  Returns the chosen 0-based
index, or `none` with the printed error line. -/
def read_index_input (tasks : List Task) (line : String) : Option Nat × List Event :=
  match parse_usize line with
  | none => (none, [Event.out "\nInput must be a valid index!"])
  | some num =>
    let index := (num + (2 ^ 64 - 1)) % 2 ^ 64
    if index ≥ tasks.length then (none, [Event.out "\nInvalid task index!"])
    else (some index, [])

/-- Model of `add_task`: push to the end of the vector. -/
def add_task (tasks : List Task) (new_task : Task) : List Task :=
  tasks ++ [new_task]

/-- Model of `complete_task`: `get_mut(index)` succeeds for a valid index
and sets `done`; otherwise an error line is printed and nothing changes. -/
def complete_task (tasks : List Task) (index : Nat) : List Task × List Event :=
  match tasks[index]? with
  | some t => (tasks.set index ⟨t.name, t.desc, t.due_date, true⟩, [])
  | none => (tasks, [Event.out "\nInvalid task index!"])

/-- Model of `delete_task`: `get(index)` succeeds for a valid index and the
element is removed; otherwise an error line is printed and nothing
changes. -/
def delete_task (tasks : List Task) (index : Nat) : List Task × List Event :=
  match tasks[index]? with
  | some _ => (tasks.eraseIdx index, [])
  | none => (tasks, [Event.out "\nInvalid task index!"])

/-- Model of `remove_complete_tasks`: `retain(|task| !task.done)`. -/
def remove_complete_tasks (tasks : List Task) : List Task :=
  tasks.filter (fun task => !task.done)

/-- The display line of `view_tasks` for the task at 0-based index `i`. -/
def view_line (i : Nat) (t : Task) : String :=
  "\t" ++ toString (i + 1) ++ ". " ++ t.name ++ " : " ++ t.due_date ++
    " : Done - " ++ (if t.done then "true" else "false") ++ "\n\t" ++ t.desc ++ "\n"

/-- Model of `view_tasks`: a blank line then one line per task. -/
def view_tasks (tasks : List Task) : List Event :=
  Event.out "" :: (tasks.enum.map (fun p => Event.out (view_line p.1 p.2)))

/-- The menu prompt printed at the top of every loop iteration. -/
def menuText : String :=
  "\nWhat would you like to? (eg: \x271\x27)\n1. View tasks\n2. Add a task\n3. Complete task\n4. Delete task"

/-- The printed output and file effects of the exit branch of `main`, in
source order: purge message pair, serialize message pair (serialization is
in memory), file creation (which truncates `tasks.json`), then a single
`write_all` of the complete serialized buffer, then normal exit. -/
def exit_events (tasks : List Task) : List Event :=
  [Event.out "\nRemoving completed tasks...",
   Event.out "Completed tasks removed",
   Event.out "\nSerializing data...",
   Event.out "Data serialized",
   Event.out "\nCreating file...",
   Event.fileCreate,
   Event.out "File created",
   Event.out "\nSaving work...",
   Event.fileWrite (renderTasks (remove_complete_tasks tasks)),
   Event.out "Work saved",
   Event.out "\nExiting successfully",
   Event.exit 0]

/-- Result of one iteration of the runtime loop of `main`. -/
structure StepOut where
  tasks : List Task
  remaining : List InLine
  events : List Event
  exited : Bool
deriving DecidableEq, Repr

/-- One iteration of the runtime loop of `main`: print the menu, read a
line, dispatch.  `"1"` views; `"2"` prompts for the three fields and
appends a task with `done = false`; `"3"`/`"4"` view, prompt, read an index
and complete/delete it, or return to the menu on an invalid index; any
other input takes the exit branch. -/
def step (tasks : List Task) (ins : List InLine) : StepOut :=
  let r0 := read_line ins
  let resp := r0.1
  let ins1 := r0.2
  if resp = "1" then
    ⟨tasks, ins1, Event.out menuText :: view_tasks tasks, false⟩
  else if resp = "2" then
    let r1 := read_line ins1
    let r2 := read_line r1.2
    let r3 := read_line r2.2
    let new_task : Task := ⟨r1.1, r2.1, r3.1, false⟩
    ⟨add_task tasks new_task, r3.2,
      [Event.out menuText,
       Event.out "\nEnter a name for \x27new_task\x27:",
       Event.out ("\nEnter a short description for \x27" ++ r1.1 ++ "\x27:"),
       Event.out ("\nEnter a due date for \x27" ++ r1.1 ++ "\x27:")], false⟩
  else if resp = "3" then
    let r1 := read_line ins1
    let ri := read_index_input tasks r1.1
    match ri.1 with
    | some index =>
      let c := complete_task tasks index
      ⟨c.1, r1.2,
        Event.out menuText :: view_tasks tasks ++
          [Event.out "\nSelect a task to mark as complete:"] ++ ri.2 ++ c.2, false⟩
    | none =>
      ⟨tasks, r1.2,
        Event.out menuText :: view_tasks tasks ++
          [Event.out "\nSelect a task to mark as complete:"] ++ ri.2, false⟩
  else if resp = "4" then
    let r1 := read_line ins1
    let ri := read_index_input tasks r1.1
    match ri.1 with
    | some index =>
      let d := delete_task tasks index
      ⟨d.1, r1.2,
        Event.out menuText :: view_tasks tasks ++
          [Event.out "\nSelect a task to delete:"] ++ ri.2 ++ d.2, false⟩
    | none =>
      ⟨tasks, r1.2,
        Event.out menuText :: view_tasks tasks ++
          [Event.out "\nSelect a task to delete:"] ++ ri.2, false⟩
  else
    ⟨remove_complete_tasks tasks, ins1, Event.out menuText :: exit_events tasks, true⟩

/-- The runtime loop: iterate `step` until the exit branch runs (`true`) or
the fuel bound is hit (`false`; the real loop is unbounded). -/
def session : Nat → List Task → List InLine → List Event × Bool
  | 0, _, _ => ([], false)
  | fuel + 1, tasks, ins =>
    let r := step tasks ins
    if r.exited then (r.events, true)
    else
      let s := session fuel r.tasks r.remaining
      (r.events ++ s.1, s.2)

/-- File contents over time: the initial contents followed by the contents
after each successive event (`fileCreate` truncates, `fileWrite` replaces,
output and exit do not touch the file). -/
def applyEvent (fc : List Char) (e : Event) : List Char :=
  match e with
  | Event.fileCreate => []
  | Event.fileWrite c => c
  | _ => fc

/-- All intermediate on-disk states along a list of events, starting from
`prior`. -/
def fileStates (prior : List Char) : List Event → List (List Char)
  | [] => [prior]
  | e :: evs => prior :: fileStates (applyEvent prior e) evs

/-- The buffers passed to `write_all`, in order. -/
def writePayloads (evs : List Event) : List (List Char) :=
  evs.filterMap (fun e =>
    match e with
    | Event.fileWrite c => some c
    | _ => none)

/-! ## Helper lemmas -/

/-- A parsed `usize` is below `2 ^ 64`. -/
theorem parse_usize_lt (s : String) (n : Nat) (h : parse_usize s = some n) : n < 2 ^ 64 := by
  simp only [parse_usize] at h
  split_ifs at h with h1 h2 h3
  all_goals cases h
  all_goals assumption

/-- On an invalid index line (non-numeric, zero, or above the store length)
`read_index_input` yields no index and prints one of the two error lines. -/
theorem read_index_input_invalid (tasks : List Task) (line : String)
    (hlen : tasks.length < 2 ^ 64)
    (hbad : parse_usize line = none ∨ parse_usize line = some 0 ∨
      ∃ n, parse_usize line = some n ∧ tasks.length < n) :
    read_index_input tasks line = (none, [Event.out "\nInput must be a valid index!"]) ∨
    read_index_input tasks line = (none, [Event.out "\nInvalid task index!"]) := by
  rcases hbad with hb | hb | ⟨n, hb, hn⟩
  · left
    simp only [read_index_input, hb]
  · right
    simp only [read_index_input, hb]
    rw [if_pos ?_]
    have : ((0 : Nat) + (2 ^ 64 - 1)) % 2 ^ 64 = 2 ^ 64 - 1 := by
      rw [Nat.zero_add, Nat.mod_eq_of_lt (by omega)]
    rw [this]
    omega
  · right
    have hnlt : n < 2 ^ 64 := parse_usize_lt _ _ hb
    simp only [read_index_input, hb]
    rw [if_pos ?_]
    have hmod : (n + (2 ^ 64 - 1)) % 2 ^ 64 = n - 1 := by
      have h1 : n + (2 ^ 64 - 1) = (n - 1) + 2 ^ 64 := by omega
      rw [h1, Nat.add_mod_right, Nat.mod_eq_of_lt (by omega)]
    rw [hmod]
    omega

/-! ## Claims -/

/-- C3.  For every task sequence `T`, including the empty sequence, loading
the file produced by saving `T` (the `serde_json` serialization written at
exit) yields a sequence equal to `T` in length, order, and all four fields
of every task. -/
theorem load_save_round_trip (T : List Task) :
    read_tasks (FileState.present (renderTasks T)) = Except.ok T := by
  simp only [read_tasks, parseTasks_renderTasks]

/-- C2, counterexample.  A file that exists but cannot be parsed is NOT
distinguished from the missing-file case: `main` handles both through the
same `Err(_)` arm, printing the same line and continuing with an empty
store, so the claimed distinct surfacing is false at this input. -/
theorem malformed_file_not_distinguished_cx :
    parseTasks (("definitely not json").data) = none ∧
    load_step (FileState.present (("definitely not json").data)) = load_step FileState.missing :=
  ⟨rfl, rfl⟩

/-- C2, amended.  A missing file yields an empty store and the session
continues; a present-but-unparsable file produces a distinct error value
inside `read_tasks`, but `main` collapses it into the very same recoverable
path as a missing file: the same message is printed and an empty store is
used, rather than surfacing a distinct failure. -/
theorem malformed_file_treated_as_missing (c : List Char) (h : parseTasks c = none) :
    read_tasks (FileState.present c) = Except.error ReadErr.invalidData ∧
    load_step (FileState.present c) = ([], [Event.out "`tasks.json` is empty, no tasks loaded."]) ∧
    load_step FileState.missing = ([], [Event.out "`tasks.json` is empty, no tasks loaded."]) := by
  have h1 : read_tasks (FileState.present c) = Except.error ReadErr.invalidData := by
    simp only [read_tasks, h]
  exact ⟨h1, by simp only [load_step, h1], rfl⟩

/-- C2, witness for the amended claim at a concrete unparsable file. -/
theorem malformed_file_treated_as_missing_witness :
    read_tasks (FileState.present (("x").data)) = Except.error ReadErr.invalidData ∧
    load_step (FileState.present (("x").data)) =
      ([], [Event.out "`tasks.json` is empty, no tasks loaded."]) ∧
    load_step FileState.missing = ([], [Event.out "`tasks.json` is empty, no tasks loaded."]) :=
  malformed_file_treated_as_missing (("x").data) rfl

/-- C4.  For every store and valid position, `complete_task` sets exactly
that task's `done` flag to `true`: the length is unchanged, the selected
task keeps its other three fields, every other position is untouched, and
no error line is printed. -/
theorem complete_task_frame (tasks : List Task) (i : Nat) (t : Task)
    (h : tasks[i]? = some t) :
    (complete_task tasks i).1.length = tasks.length ∧
    (complete_task tasks i).1[i]? = some ⟨t.name, t.desc, t.due_date, true⟩ ∧
    (∀ j, j ≠ i → (complete_task tasks i).1[j]? = tasks[j]?) ∧
    (complete_task tasks i).2 = [] := by
  have hi : i < tasks.length := by
    by_contra hge
    rw [List.getElem?_eq_none (by omega)] at h
    cases h
  have hred : complete_task tasks i = (tasks.set i ⟨t.name, t.desc, t.due_date, true⟩, []) := by
    simp only [complete_task, h]
  rw [hred]
  refine ⟨List.length_set tasks i _, List.getElem?_set_self (by simpa using hi), ?_, rfl⟩
  intro j hj
  exact List.getElem?_set_ne (fun hc => hj hc.symm)

/-- C4, witness at a two-element store. -/
theorem complete_task_frame_witness :
    (complete_task [⟨"a", "b", "c", false⟩, ⟨"d", "e", "f", false⟩] 0).1.length =
      ([⟨"a", "b", "c", false⟩, ⟨"d", "e", "f", false⟩] : List Task).length ∧
    (complete_task [⟨"a", "b", "c", false⟩, ⟨"d", "e", "f", false⟩] 0).1[0]? =
      some ⟨"a", "b", "c", true⟩ ∧
    (∀ j, j ≠ 0 →
      (complete_task [⟨"a", "b", "c", false⟩, ⟨"d", "e", "f", false⟩] 0).1[j]? =
        ([⟨"a", "b", "c", false⟩, ⟨"d", "e", "f", false⟩] : List Task)[j]?) ∧
    (complete_task [⟨"a", "b", "c", false⟩, ⟨"d", "e", "f", false⟩] 0).2 = [] :=
  complete_task_frame [⟨"a", "b", "c", false⟩, ⟨"d", "e", "f", false⟩] 0 ⟨"a", "b", "c", false⟩ rfl

/-- C5.  For every store and valid position, `delete_task` removes exactly
that task: the length drops by one, positions before it are untouched,
every later task shifts down one position with all fields preserved, and no
error line is printed. -/
theorem delete_task_removes_exactly (tasks : List Task) (i : Nat) (h : i < tasks.length) :
    (delete_task tasks i).1.length = tasks.length - 1 ∧
    (∀ j, j < i → (delete_task tasks i).1[j]? = tasks[j]?) ∧
    (∀ j, i ≤ j → (delete_task tasks i).1[j]? = tasks[j + 1]?) ∧
    (delete_task tasks i).2 = [] := by
  have hred : delete_task tasks i = (tasks.eraseIdx i, []) := by
    simp only [delete_task, List.getElem?_eq_getElem h]
  rw [hred]
  exact ⟨List.length_eraseIdx_of_lt h,
    fun j hj => List.getElem?_eraseIdx_of_lt tasks i j hj,
    fun j hj => List.getElem?_eraseIdx_of_ge tasks i j hj, rfl⟩

/-- C5, witness at a two-element store: deleting position 0 leaves only the
second task, now at position 0. -/
theorem delete_task_removes_exactly_witness :
    (delete_task [⟨"a", "b", "c", false⟩, ⟨"d", "e", "f", false⟩] 0).1.length =
      ([⟨"a", "b", "c", false⟩, ⟨"d", "e", "f", false⟩] : List Task).length - 1 ∧
    (∀ j, j < 0 →
      (delete_task [⟨"a", "b", "c", false⟩, ⟨"d", "e", "f", false⟩] 0).1[j]? =
        ([⟨"a", "b", "c", false⟩, ⟨"d", "e", "f", false⟩] : List Task)[j]?) ∧
    (∀ j, 0 ≤ j →
      (delete_task [⟨"a", "b", "c", false⟩, ⟨"d", "e", "f", false⟩] 0).1[j]? =
        ([⟨"a", "b", "c", false⟩, ⟨"d", "e", "f", false⟩] : List Task)[j + 1]?) ∧
    (delete_task [⟨"a", "b", "c", false⟩, ⟨"d", "e", "f", false⟩] 0).2 = [] :=
  delete_task_removes_exactly [⟨"a", "b", "c", false⟩, ⟨"d", "e", "f", false⟩] 0 (by decide)

/-- C6.  `remove_complete_tasks` keeps the survivors in their original
relative order (sublist), removes every task whose `done` flag is `true`,
keeps every task whose flag is `false`, and is idempotent. -/
theorem remove_complete_tasks_spec (tasks : List Task) :
    (remove_complete_tasks tasks).Sublist tasks ∧
    (∀ t, t ∈ remove_complete_tasks tasks → t.done = false) ∧
    (∀ t, t ∈ tasks → t.done = false → t ∈ remove_complete_tasks tasks) ∧
    remove_complete_tasks (remove_complete_tasks tasks) = remove_complete_tasks tasks := by
  refine ⟨List.filter_sublist _, ?_, ?_, ?_⟩
  · intro t ht
    have := List.of_mem_filter ht
    simpa using this
  · intro t ht hdone
    exact List.mem_filter.mpr ⟨ht, by simp [hdone]⟩
  · simp [remove_complete_tasks, List.filter_filter]

/-- Helper: the `"3"` handler when the index read is rejected: nothing is
mutated, input moves past the index line, control returns to the menu. -/
theorem step_three_invalid (tasks : List Task) (line : String) (ins : List InLine)
    (h1 : (read_index_input tasks (trimS line)).1 = none) :
    step tasks (InLine.ok "3" :: InLine.ok line :: ins) =
      ⟨tasks, ins, Event.out menuText :: view_tasks tasks ++
        [Event.out "\nSelect a task to mark as complete:"] ++
        (read_index_input tasks (trimS line)).2, false⟩ := by
  have hmatch : step tasks (InLine.ok "3" :: InLine.ok line :: ins) =
      match (read_index_input tasks (trimS line)).1 with
      | some index =>
        ⟨(complete_task tasks index).1, ins,
          Event.out menuText :: view_tasks tasks ++
            [Event.out "\nSelect a task to mark as complete:"] ++
            (read_index_input tasks (trimS line)).2 ++ (complete_task tasks index).2, false⟩
      | none =>
        ⟨tasks, ins,
          Event.out menuText :: view_tasks tasks ++
            [Event.out "\nSelect a task to mark as complete:"] ++
            (read_index_input tasks (trimS line)).2, false⟩ := rfl
  rw [hmatch, h1]

/-- Helper: the `"4"` handler when the index read is rejected: nothing is
mutated, input moves past the index line, control returns to the menu. -/
theorem step_four_invalid (tasks : List Task) (line : String) (ins : List InLine)
    (h1 : (read_index_input tasks (trimS line)).1 = none) :
    step tasks (InLine.ok "4" :: InLine.ok line :: ins) =
      ⟨tasks, ins, Event.out menuText :: view_tasks tasks ++
        [Event.out "\nSelect a task to delete:"] ++
        (read_index_input tasks (trimS line)).2, false⟩ := by
  have hmatch : step tasks (InLine.ok "4" :: InLine.ok line :: ins) =
      match (read_index_input tasks (trimS line)).1 with
      | some index =>
        ⟨(delete_task tasks index).1, ins,
          Event.out menuText :: view_tasks tasks ++
            [Event.out "\nSelect a task to delete:"] ++
            (read_index_input tasks (trimS line)).2 ++ (delete_task tasks index).2, false⟩
      | none =>
        ⟨tasks, ins,
          Event.out menuText :: view_tasks tasks ++
            [Event.out "\nSelect a task to delete:"] ++
            (read_index_input tasks (trimS line)).2, false⟩ := rfl
  rw [hmatch, h1]

/-- C1.  For every store and every invalid index line entered during
complete (`"3"`) or delete (`"4"`) — non-numeric, zero, or a number above
the current length — the handler prints one of the two error lines, leaves
the store unchanged, and returns to the menu (no exit, no mutation).  In
particular `"0"` wraps to `2 ^ 64 - 1` under the modelled `usize`
subtraction and is rejected by the range check. -/
theorem invalid_index_input_recoverable (tasks : List Task) (cmd line : String)
    (ins : List InLine)
    (hlen : tasks.length < 2 ^ 64)
    (hcmd : cmd = "3" ∨ cmd = "4")
    (hbad : parse_usize (trimS line) = none ∨ parse_usize (trimS line) = some 0 ∨
      ∃ n, parse_usize (trimS line) = some n ∧ tasks.length < n) :
    (step tasks (InLine.ok cmd :: InLine.ok line :: ins)).tasks = tasks ∧
    (step tasks (InLine.ok cmd :: InLine.ok line :: ins)).remaining = ins ∧
    (step tasks (InLine.ok cmd :: InLine.ok line :: ins)).exited = false ∧
    (Event.out "\nInput must be a valid index!"
        ∈ (step tasks (InLine.ok cmd :: InLine.ok line :: ins)).events ∨
      Event.out "\nInvalid task index!"
        ∈ (step tasks (InLine.ok cmd :: InLine.ok line :: ins)).events) := by
  have hri := read_index_input_invalid tasks (trimS line) hlen hbad
  rcases hcmd with rfl | rfl
  · rcases hri with hri | hri
    · have h1 : (read_index_input tasks (trimS line)).1 = none := by rw [hri]
      rw [step_three_invalid tasks line ins h1, hri]
      refine ⟨rfl, rfl, rfl, Or.inl ?_⟩
      simp
    · have h1 : (read_index_input tasks (trimS line)).1 = none := by rw [hri]
      rw [step_three_invalid tasks line ins h1, hri]
      refine ⟨rfl, rfl, rfl, Or.inr ?_⟩
      simp
  · rcases hri with hri | hri
    · have h1 : (read_index_input tasks (trimS line)).1 = none := by rw [hri]
      rw [step_four_invalid tasks line ins h1, hri]
      refine ⟨rfl, rfl, rfl, Or.inl ?_⟩
      simp
    · have h1 : (read_index_input tasks (trimS line)).1 = none := by rw [hri]
      rw [step_four_invalid tasks line ins h1, hri]
      refine ⟨rfl, rfl, rfl, Or.inr ?_⟩
      simp

/-- C1, witness: entering `"3"` then `"0"` at the empty store prints an
error, changes nothing, and returns to the menu. -/
theorem invalid_index_input_recoverable_witness :
    (step [] (InLine.ok "3" :: InLine.ok "0" :: [])).tasks = [] ∧
    (step [] (InLine.ok "3" :: InLine.ok "0" :: [])).remaining = [] ∧
    (step [] (InLine.ok "3" :: InLine.ok "0" :: [])).exited = false ∧
    (Event.out "\nInput must be a valid index!"
        ∈ (step [] (InLine.ok "3" :: InLine.ok "0" :: [])).events ∨
      Event.out "\nInvalid task index!"
        ∈ (step [] (InLine.ok "3" :: InLine.ok "0" :: [])).events) :=
  invalid_index_input_recoverable [] "3" "0" [] (by decide) (Or.inl rfl)
    (Or.inr (Or.inl (by decide)))

/-- C9.  Whenever `read_index_input` returns `some i`, the index `i` is
strictly below the store length, and consequently neither `complete_task`
nor `delete_task` at `i` reaches its internal invalid-index branch (no
error line is printed by either). -/
theorem read_index_input_in_bounds (tasks : List Task) (line : String) (i : Nat)
    (h : (read_index_input tasks line).1 = some i) :
    i < tasks.length ∧ (complete_task tasks i).2 = [] ∧ (delete_task tasks i).2 = [] := by
  have hi : i < tasks.length := by
    rcases hp : parse_usize line with _ | num
    · simp only [read_index_input, hp] at h
      cases h
    · simp only [read_index_input, hp] at h
      split_ifs at h with hge
      have h2 : (num + (2 ^ 64 - 1)) % 2 ^ 64 = i := by simpa using h
      omega
  refine ⟨hi, ?_, ?_⟩
  · simp only [complete_task, List.getElem?_eq_getElem hi]
  · simp only [delete_task, List.getElem?_eq_getElem hi]

/-- C9, witness: on input `"1"` over a one-task store the returned index 0
is in bounds and both operations stay on their mutating branch. -/
theorem read_index_input_in_bounds_witness :
    0 < ([⟨"a", "b", "c", false⟩] : List Task).length ∧
    (complete_task [⟨"a", "b", "c", false⟩] 0).2 = [] ∧
    (delete_task [⟨"a", "b", "c", false⟩] 0).2 = [] :=
  read_index_input_in_bounds [⟨"a", "b", "c", false⟩] "1" 0 (by decide)

/-- C7.  On any menu input other than `"1"`–`"4"`, the step takes the exit
branch: it purges completed tasks, then emits — in source order — the
status lines, the truncating file creation, a single write of the complete
serialization of the purged store, and normal termination with exit code 0
as the final event. -/
theorem non_menu_input_exits (tasks : List Task) (s : String) (ins : List InLine)
    (h1 : trimS s ≠ "1") (h2 : trimS s ≠ "2") (h3 : trimS s ≠ "3") (h4 : trimS s ≠ "4") :
    step tasks (InLine.ok s :: ins) =
      ⟨remove_complete_tasks tasks, ins, Event.out menuText :: exit_events tasks, true⟩ ∧
    (exit_events tasks).getLast? = some (Event.exit 0) ∧
    writePayloads (exit_events tasks) = [renderTasks (remove_complete_tasks tasks)] := by
  refine ⟨?_, rfl, rfl⟩
  simp only [step, read_line]
  rw [if_neg h1, if_neg h2, if_neg h3, if_neg h4]

/-- C7, witness at input `"5"` over a store whose only task is done. -/
theorem non_menu_input_exits_witness :
    step [⟨"a", "b", "c", true⟩] [InLine.ok "5"] =
      ⟨remove_complete_tasks [⟨"a", "b", "c", true⟩], [],
        Event.out menuText :: exit_events [⟨"a", "b", "c", true⟩], true⟩ ∧
    (exit_events [⟨"a", "b", "c", true⟩]).getLast? = some (Event.exit 0) ∧
    writePayloads (exit_events [⟨"a", "b", "c", true⟩]) =
      [renderTasks (remove_complete_tasks [⟨"a", "b", "c", true⟩])] :=
  non_menu_input_exits [⟨"a", "b", "c", true⟩] "5" [] (by decide) (by decide) (by decide)
    (by decide)

set_option maxRecDepth 4096 in
/-- C10.  A failed or exhausted standard input produces the empty string
from `read_line`; the menu dispatch treats the empty string as the exit
command, so the loop purges, saves and terminates normally instead of
crashing or spinning. -/
theorem input_end_or_error_exits (tasks : List Task) (r : List InLine) (fuel : Nat) :
    read_line [] = ("", []) ∧
    read_line (InLine.err :: r) = ("", r) ∧
    step tasks [] =
      ⟨remove_complete_tasks tasks, [], Event.out menuText :: exit_events tasks, true⟩ ∧
    step tasks (InLine.err :: r) =
      ⟨remove_complete_tasks tasks, r, Event.out menuText :: exit_events tasks, true⟩ ∧
    session (fuel + 1) tasks [] = (Event.out menuText :: exit_events tasks, true) :=
  ⟨rfl, rfl, rfl, rfl, rfl⟩

/-- C8, counterexample.  The exit path is not crash-atomic in the claimed
sense: starting from prior contents `"old"` with one unfinished task, the
empty file (the state between the truncating `File::create` and the
`write_all`) is an intermediate on-disk state that is neither the prior
contents nor the fully written new contents. -/
theorem save_interruption_cx :
    ¬ (∀ s, s ∈ fileStates (("old").data) (exit_events [⟨"a", "b", "c", false⟩]) →
        s = ("old").data ∨
        s = renderTasks (remove_complete_tasks [⟨"a", "b", "c", false⟩])) := by
  decide

/-- C8, amended.  The exit path serializes fully in memory and performs
exactly one write, whose payload is the complete serialization of the
purged store (never an incremental or partial buffer); however, because
`File::create` truncates before `write_all`, the intermediate on-disk
states are exactly the prior contents, the empty file, or the complete new
contents. -/
theorem save_single_complete_write (prior : List Char) (tasks : List Task) :
    writePayloads (exit_events tasks) = [renderTasks (remove_complete_tasks tasks)] ∧
    ∀ s, s ∈ fileStates prior (exit_events tasks) →
      s = prior ∨ s = [] ∨ s = renderTasks (remove_complete_tasks tasks) := by
  refine ⟨rfl, ?_⟩
  intro s hs
  simp only [exit_events, fileStates, applyEvent] at hs
  simp only [List.mem_cons, List.not_mem_nil, or_false] at hs
  rcases hs with h | h | h | h | h | h | h | h | h | h | h | h | h <;> subst h <;> simp

end Todo
